import Mathlib

/-
Verification of the Dimensional Dataset Accessor abstraction described by
the repository's specification.  The repository is a notebook that calls an
external gridded-data reader, a numeric array library and a tabular library;
the accessor operations below (masked mean reduction, positional point and
slice selection, time-coordinate decoding, labeled-table projection) are
modelled from the specification, faithful to how the notebook exercises the
external libraries.  Cells carry rational values; a missing (masked) cell is
`none`.
-/

/-- A data cell: either a present rational value or missing (masked).
Modelled from the spec: design note "Cell = Present(value) | Missing";
the notebook's arrays are masked arrays whose mask flags cells to exclude. -/
abbrev Cell := Option ℚ

/-- Arithmetic mean of a list of cells excluding missing cells from both the
numerator and the denominator; when every cell is missing the result is
missing, never zero.  Modelled from the spec: the notebook delegates this to
the masked-array mean of the numeric library. -/
def maskedMean (cells : List Cell) : Cell :=
  let present := cells.filterMap id
  if present = [] then none
  else some (present.sum / (present.length : ℚ))

/-- A variable of the dataset: an ordered tuple of named dimensions
(name and length) together with a dense array of cells, accessed by a
positional multi-index.  Modelled from the spec (section 3, Variable). -/
structure Variable where
  dims : List (String × Nat)
  data : List Nat → Cell

/-- The shape of a variable: the lengths of its dimensions in order. -/
def Variable.shape (v : Variable) : List Nat := v.dims.map Prod.snd

/-- All multi-indices of a given shape, in row-major order. -/
def allIndices : List Nat → List (List Nat)
  | [] => [[]]
  | n :: ns => (List.range n).flatMap (fun i => (allIndices ns).map (fun t => i :: t))

/-- Interleave an output multi-index with a reduced-axes multi-index
according to a mask over the original dimensions (`true` marks a reduced
axis). -/
def mergeIdx : List Bool → List Nat → List Nat → List Nat
  | [], _, _ => []
  | true :: m, os, r :: rs => r :: mergeIdx m os rs
  | true :: _, _, [] => []
  | false :: m, o :: os, rs => o :: mergeIdx m os rs
  | false :: _, [], _ => []

/-- Which of a variable's dimensions are reduced by the given axis names. -/
def reducedMask (v : Variable) (axes : List String) : List Bool :=
  v.dims.map (fun d => axes.contains d.1)

/-- The cells of the variable that contribute to one output position of a
mean reduction over the named axes: one cell for every combination of
indices along the reduced axes. -/
def contribCells (v : Variable) (axes : List String) (out : List Nat) : List Cell :=
  (allIndices ((v.dims.filter (fun d => axes.contains d.1)).map Prod.snd)).map
    (fun r => v.data (mergeIdx (reducedMask v axes) out r))

/-- Mean reduction over the named axes.  Modelled from the spec
(section 4.4, reduce_mean): the axes not listed are kept in their original
relative order, and each output cell is the masked mean of its contributing
cells. -/
def reduce_mean (v : Variable) (axes : List String) : Variable :=
  { dims := v.dims.filter (fun d => !(axes.contains d.1)),
    data := fun out => maskedMean (contribCells v axes out) }

/-- Dimensions of the notebook's precipitation variable:
time of length 192, lat of length 444, lon of length 922. -/
def precipDims : List (String × Nat) := [("time", 192), ("lat", 444), ("lon", 922)]

/-- Example variable used by witnesses: one axis of length 2; the cell at
index 0 is missing and the cell at index 1 holds the value 5. -/
def vOne : Variable :=
  { dims := [("t", 2)], data := fun idx => if idx = [0] then none else some 5 }

/-- Example variable used by witnesses: one axis of length 2 with every cell
missing. -/
def vAllMissing : Variable :=
  { dims := [("t", 2)], data := fun _ => none }

/-- C1: for every variable, every set of reduction axes and every output
position, reduce_mean excludes missing cells from both the numerator and the
denominator; if every contributing cell is missing the output cell is
missing (never zero), and if exactly one contributing cell is non-missing
the output cell equals that single value. -/
theorem reduce_mean_missing_cells (v : Variable) (axes : List String) (out : List Nat) :
    ((contribCells v axes out).filterMap id = [] →
      (reduce_mean v axes).data out = none) ∧
    (∀ x : ℚ, (contribCells v axes out).filterMap id = [x] →
      (reduce_mean v axes).data out = some x) ∧
    ((contribCells v axes out).filterMap id ≠ [] →
      (reduce_mean v axes).data out =
        some (((contribCells v axes out).filterMap id).sum /
          (((contribCells v axes out).filterMap id).length : ℚ))) := by
  refine ⟨fun h => ?_, fun x h => ?_, fun h => ?_⟩
  · show maskedMean (contribCells v axes out) = none
    simp [maskedMean, h]
  · show maskedMean (contribCells v axes out) = some x
    simp [maskedMean, h]
  · show maskedMean (contribCells v axes out) = _
    simp [maskedMean, h]

/-- Witness for C1: on a one-axis variable whose cells are all missing the
reduced cell is missing, and on a one-axis variable with exactly one
non-missing cell of value 5 the reduced cell equals 5. -/
theorem reduce_mean_missing_cells_witness :
    (reduce_mean vAllMissing ["t"]).data [] = none ∧
    (reduce_mean vOne ["t"]).data [] = some 5 :=
  ⟨(reduce_mean_missing_cells vAllMissing ["t"] []).1 (by decide),
   (reduce_mean_missing_cells vOne ["t"] []).2.1 5 (by decide)⟩

/-- C7: reducing the precipitation variable (dimensions time=192, lat=444,
lon=922) over the time axis yields an array of shape (444, 922) whose
remaining dimensions are lat and lon; in general the dimensions not reduced
over are preserved in their original relative order (a sublist of the
original dimension-name tuple). -/
theorem reduce_mean_time_shape (d : List Nat → Cell) :
    (reduce_mean ⟨precipDims, d⟩ ["time"]).shape = [444, 922] ∧
    (reduce_mean ⟨precipDims, d⟩ ["time"]).dims.map Prod.fst = ["lat", "lon"] ∧
    ∀ (v : Variable) (axes : List String),
      List.Sublist ((reduce_mean v axes).dims.map Prod.fst) (v.dims.map Prod.fst) := by
  refine ⟨rfl, rfl, fun v axes => ?_⟩
  exact List.Sublist.map Prod.fst (List.filter_sublist v.dims)

/-- Errors of the accessor operations.  Modelled from the spec
(section 7, error handling design). -/
inductive AccessError where
  | notFound
  | indexOutOfRange
  | dimensionMismatch
  | shapeMismatch
  | decodeError

/-- Resolve one supplied integer index against an axis of the given length:
a non-negative index must be below the length; a negative index i with
-length <= i < 0 resolves to length + i (so -1 is the last entry); anything
else is rejected.  Modelled from the spec and the notebook's use of the
numeric library's positional indexing, which accepts negative indices. -/
def normIdx (len : Nat) (i : Int) : Option Nat :=
  if 0 ≤ i ∧ i < (len : Int) then some i.toNat
  else if -(len : Int) ≤ i ∧ i < 0 then some ((len : Int) + i).toNat
  else none

/-- Resolve a whole multi-index against a shape; fails if any single index
fails to resolve. -/
def normAll : List Nat → List Int → Option (List Nat)
  | [], [] => some []
  | len :: ls, i :: is =>
    match normIdx len i, normAll ls is with
    | some n, some ns => some (n :: ns)
    | _, _ => none
  | _, _ => none

/-- Point selection.  Modelled from the spec (section 4.4, select_point):
requires exactly one index per declared dimension, each within bounds;
returns the cell (possibly the distinguishable missing result) as a scalar,
and fails with indexOutOfRange when an index cannot be resolved, or with
dimensionMismatch when the number of indices differs from the rank. -/
def select_point (v : Variable) (idx : List Int) : Except AccessError Cell :=
  if idx.length = v.dims.length then
    match normAll v.shape idx with
    | some ns => .ok (v.data ns)
    | none => .error .indexOutOfRange
  else .error .dimensionMismatch

/-- Example variable used by witnesses: a single axis named time of length
3, every cell present with value 1. -/
def vTime3 : Variable :=
  { dims := [("time", 3)], data := fun _ => some 1 }

/-- When every supplied index is within bounds of its axis, the whole
multi-index resolves. -/
theorem normAll_some_of_inrange : ∀ (ls : List Nat) (is : List Int),
    is.length = ls.length →
    (∀ (k : Nat) (i : Int) (len : Nat), is[k]? = some i → ls[k]? = some len → 0 ≤ i ∧ i < (len : Int)) →
    ∃ ns, normAll ls is = some ns := by
  intro ls
  induction ls with
  | nil =>
    intro is hlen _
    rw [List.length_nil, List.length_eq_zero] at hlen
    exact ⟨[], by simp [hlen, normAll]⟩
  | cons len ls ih =>
    intro is hlen h
    match is with
    | [] => simp at hlen
    | i :: is =>
      have hhead : 0 ≤ i ∧ i < (len : Int) := h 0 i len (by simp) (by simp)
      have htail : ∀ (k : Nat) (i0 : Int) (l0 : Nat), is[k]? = some i0 → ls[k]? = some l0 →
          0 ≤ i0 ∧ i0 < (l0 : Int) := by
        intro k i0 l0 h1 h2
        exact h (k + 1) i0 l0 (by simpa using h1) (by simpa using h2)
      obtain ⟨ns, hns⟩ := ih is (by simpa using hlen) htail
      refine ⟨i.toNat :: ns, ?_⟩
      simp [normAll, hns, normIdx, hhead]

/-- When some supplied index is at least its axis length, the multi-index
fails to resolve. -/
theorem normAll_none_of_oob : ∀ (ls : List Nat) (is : List Int),
    (∃ (k : Nat) (i : Int) (len : Nat), is[k]? = some i ∧ ls[k]? = some len ∧ (len : Int) ≤ i) →
    normAll ls is = none := by
  intro ls
  induction ls with
  | nil =>
    intro is h
    obtain ⟨k, _, _, _, h2, _⟩ := h
    simp at h2
  | cons len ls ih =>
    intro is h
    match is with
    | [] => simp [normAll]
    | i :: is =>
      obtain ⟨k, i0, l0, h1, h2, h3⟩ := h
      match k with
      | 0 =>
        simp only [List.getElem?_cons_zero, Option.some.injEq] at h1 h2
        have hnone : normIdx len i = none := by
          unfold normIdx
          rw [if_neg (by omega), if_neg (by omega)]
        simp [normAll, hnone]
      | k + 1 =>
        simp only [List.getElem?_cons_succ] at h1 h2
        have htail := ih is ⟨k, i0, l0, h1, h2, h3⟩
        simp only [normAll, htail]
        rcases normIdx len i <;> rfl

/-- C4: for every variable, select_point with exactly one in-range index per
declared dimension returns a scalar cell, and select_point fails with
indexOutOfRange whenever some supplied index is at least the corresponding
dimension's length. -/
theorem select_point_scalar_and_bounds (v : Variable) (idx : List Int)
    (hlen : idx.length = v.dims.length) :
    ((∀ (k : Nat) (i : Int) (len : Nat), idx[k]? = some i → v.shape[k]? = some len →
        0 ≤ i ∧ i < (len : Int)) →
      ∃ c : Cell, select_point v idx = .ok c) ∧
    ((∃ (k : Nat) (i : Int) (len : Nat), idx[k]? = some i ∧ v.shape[k]? = some len ∧ (len : Int) ≤ i) →
      select_point v idx = .error .indexOutOfRange) := by
  constructor
  · intro h
    have hsh : idx.length = v.shape.length := by simp [Variable.shape, hlen]
    obtain ⟨ns, hns⟩ := normAll_some_of_inrange v.shape idx hsh h
    exact ⟨v.data ns, by simp [select_point, hlen, hns]⟩
  · intro h
    have hnone := normAll_none_of_oob v.shape idx h
    simp [select_point, hlen, hnone]

/-- Witness for C4: on the time-only example variable of length 3, index 2
selects a scalar and index 3 is rejected as out of range. -/
theorem select_point_scalar_and_bounds_witness :
    (∃ c : Cell, select_point vTime3 [2] = .ok c) ∧
    select_point vTime3 [3] = .error .indexOutOfRange := by
  constructor
  · refine (select_point_scalar_and_bounds vTime3 [2] rfl).1 ?_
    intro k i len h1 h2
    match k with
    | 0 =>
      simp only [List.getElem?_cons_zero, Option.some.injEq] at h1
      simp only [vTime3, Variable.shape, List.map_cons, List.map_nil,
        List.getElem?_cons_zero, Option.some.injEq] at h2
      omega
    | k + 1 => simp at h1
  · exact (select_point_scalar_and_bounds vTime3 [3] rfl).2 ⟨0, 3, 3, rfl, rfl, by decide⟩

/-- C10: the positional selection interface accepts negative indices: on an
axis of positive length, index -1 resolves to the last position
(length - 1), and select_point with -1 on the leading axis equals
select_point with length - 1 there. -/
theorem negative_index_selects_last (v : Variable) (nm : String) (len : Nat)
    (ds : List (String × Nat)) (rest : List Int)
    (hdims : v.dims = (nm, len) :: ds) (hpos : 0 < len) :
    normIdx len (-1) = some (len - 1) ∧
    select_point v (-1 :: rest) = select_point v (((len : Int) - 1) :: rest) := by
  have e1 : normIdx len (-1) = some (len - 1) := by
    unfold normIdx
    rw [if_neg (by omega), if_pos (by omega)]
    congr 1
    omega
  have e2 : normIdx len ((len : Int) - 1) = some (len - 1) := by
    unfold normIdx
    rw [if_pos (by omega)]
    congr 1
    omega
  refine ⟨e1, ?_⟩
  unfold select_point
  rw [hdims]
  have hsh : Variable.shape v = len :: ds.map Prod.snd := by
    simp [Variable.shape, hdims]
  rw [hsh]
  simp only [List.length_cons]
  split
  · simp only [normAll, e1, e2]
  · rfl

/-- Witness for C10: on the time-only example variable of length 3,
selecting with index -1 equals selecting with index 2 (the last entry). -/
theorem negative_index_selects_last_witness :
    select_point vTime3 [-1] = select_point vTime3 [2] := by
  have h := (negative_index_selects_last vTime3 "time" 3 [] [] rfl (by decide)).2
  norm_num at h
  exact h

/-- Dimensions of a sliced variable: each half-open index range is clamped
to the axis's valid extent, so the sliced length along an axis of length n
with range (a, b) is min b n - min a n. -/
def sliceDims : List (String × Nat) → List (Nat × Nat) → List (String × Nat) :=
  List.zipWith (fun d r => (d.1, min r.2 d.2 - min r.1 d.2))

/-- Clamped start offsets of a slice, one per axis. -/
def sliceStarts : List (String × Nat) → List (Nat × Nat) → List Nat :=
  List.zipWith (fun d r => min r.1 d.2)

/-- Offset a multi-index by per-axis start offsets. -/
def addIdx : List Nat → List Nat → List Nat :=
  List.zipWith (fun a b => a + b)

/-- The dense array produced by slicing a variable with one clamped
half-open range per dimension. -/
def slicedArray (v : Variable) (ranges : List (Nat × Nat)) : Variable :=
  { dims := sliceDims v.dims ranges,
    data := fun idx => v.data (addIdx (sliceStarts v.dims ranges) idx) }

/-- Slice selection.  Modelled from the spec (section 4.4, select_slice):
one half-open index range per dimension ("all" is the range (0, length));
out-of-range bounds are clamped to the dimension's valid extent, never
wrapped; the number of ranges must match the rank, else
dimensionMismatch. -/
def select_slice (v : Variable) (ranges : List (Nat × Nat)) : Except AccessError Variable :=
  if ranges.length = v.dims.length then .ok (slicedArray v ranges)
  else .error .dimensionMismatch

/-- The full original range on every dimension: the no-op slice request. -/
def fullRanges (v : Variable) : List (Nat × Nat) := v.dims.map (fun d => (0, d.2))

/-- Adding a zero start offset per axis leaves a multi-index of full rank
unchanged. -/
theorem addIdx_zero : ∀ (n : Nat) (idx : List Nat), idx.length = n →
    addIdx (List.replicate n 0) idx = idx := by
  intro n
  induction n with
  | zero =>
    intro idx h
    rw [List.length_eq_zero] at h
    simp [h, addIdx]
  | succ m ih =>
    intro idx h
    match idx with
    | [] => simp at h
    | i :: is =>
      simp only [List.replicate_succ, addIdx, List.zipWith_cons_cons, Nat.zero_add]
      have := ih is (by simpa using h)
      simp only [addIdx] at this
      rw [this]

/-- C5: for every variable, select_slice with the full original range on
every dimension succeeds and reproduces the original array bit-for-bit:
the dimensions are unchanged and every cell of full rank is unchanged. -/
theorem select_slice_noop_roundtrip (v : Variable) :
    select_slice v (fullRanges v) = .ok (slicedArray v (fullRanges v)) ∧
    (slicedArray v (fullRanges v)).dims = v.dims ∧
    ∀ idx : List Nat, idx.length = v.dims.length →
      (slicedArray v (fullRanges v)).data idx = v.data idx := by
  have hdims : sliceDims v.dims (fullRanges v) = v.dims := by
    unfold sliceDims fullRanges
    rw [List.zipWith_map_right, List.zipWith_same]
    simp
  have hstarts : sliceStarts v.dims (fullRanges v) = List.replicate v.dims.length 0 := by
    unfold sliceStarts fullRanges
    rw [List.zipWith_map_right, List.zipWith_same]
    simp [List.map_const]
  refine ⟨?_, hdims, ?_⟩
  · unfold select_slice fullRanges
    rw [if_pos (by simp)]
  · intro idx hlen
    show v.data (addIdx (sliceStarts v.dims (fullRanges v)) idx) = v.data idx
    rw [hstarts, addIdx_zero v.dims.length idx hlen]

/-- Witness for C5: the no-op slice of the time-only example variable keeps
the cell at index 0 unchanged. -/
theorem select_slice_noop_roundtrip_witness :
    (slicedArray vTime3 (fullRanges vTime3)).data [0] = vTime3.data [0] :=
  (select_slice_noop_roundtrip vTime3).2.2 [0] rfl

/-- Slicing preserves the dimension names in order when the number of ranges
matches the rank. -/
theorem sliceDims_map_fst : ∀ (dims : List (String × Nat)) (ranges : List (Nat × Nat)),
    ranges.length = dims.length →
    (sliceDims dims ranges).map Prod.fst = dims.map Prod.fst := by
  intro dims
  induction dims with
  | nil => intro ranges h; simp [sliceDims]
  | cons d ds ih =>
    intro ranges h
    match ranges with
    | [] => simp at h
    | r :: rs =>
      simp only [sliceDims, List.zipWith_cons_cons, List.map_cons]
      have := ih rs (by simpa using h)
      simp only [sliceDims] at this
      rw [this]

/-- C8: for every variable, select_slice with one range per dimension
succeeds, preserves the dimension names in order, clamps each bound to the
axis's valid extent (the output length along an axis of length len with
range r is min r.2 len - min r.1 len), and never wraps: every output length
is at most the original axis length. -/
theorem slicedArray_shape_get (v : Variable) (ranges : List (Nat × Nat))
    (k len : Nat) (r : Nat × Nat) (hsh : v.shape[k]? = some len)
    (hr : ranges[k]? = some r) :
    (slicedArray v ranges).shape[k]? = some (min r.2 len - min r.1 len) := by
  simp only [Variable.shape, List.getElem?_map, Option.map_eq_some'] at hsh
  obtain ⟨d, hd, hdlen⟩ := hsh
  show ((sliceDims v.dims ranges).map Prod.snd)[k]? = _
  simp [List.getElem?_map, sliceDims, List.getElem?_zipWith', hd, hr, hdlen]

theorem select_slice_clamps (v : Variable) (ranges : List (Nat × Nat))
    (h : ranges.length = v.dims.length) :
    select_slice v ranges = .ok (slicedArray v ranges) ∧
    (slicedArray v ranges).dims.map Prod.fst = v.dims.map Prod.fst ∧
    (∀ (k len : Nat) (r : Nat × Nat), v.shape[k]? = some len → ranges[k]? = some r →
      (slicedArray v ranges).shape[k]? = some (min r.2 len - min r.1 len)) ∧
    (∀ (k m len : Nat), (slicedArray v ranges).shape[k]? = some m →
      v.shape[k]? = some len → m ≤ len) := by
  refine ⟨by simp [select_slice, h], sliceDims_map_fst v.dims ranges h,
    fun k len r hsh hr => slicedArray_shape_get v ranges k len r hsh hr, ?_⟩
  intro k m len hm hsh
  obtain ⟨hk, -⟩ := List.getElem?_eq_some.1 hsh
  have hkr : k < ranges.length := by
    have hlen : v.shape.length = v.dims.length := by simp [Variable.shape]
    omega
  have hr : ranges[k]? = some (ranges.get ⟨k, hkr⟩) := List.getElem?_eq_getElem hkr
  have h3 := slicedArray_shape_get v ranges k len (ranges.get ⟨k, hkr⟩) hsh hr
  rw [hm] at h3
  have hm3 : m = min (ranges.get ⟨k, hkr⟩).2 len - min (ranges.get ⟨k, hkr⟩).1 len :=
    Option.some.inj h3
  rw [hm3]
  exact le_trans (Nat.sub_le _ _) (Nat.min_le_right _ _)

/-- Witness for C8: slicing the time-only example variable of length 3 with
the over-long range (1, 10) clamps to length min 10 3 - min 1 3 = 2. -/
theorem select_slice_clamps_witness :
    (slicedArray vTime3 [(1, 10)]).shape[0]? = some 2 := by
  have h := (select_slice_clamps vTime3 [(1, 10)] rfl).2.2.1 0 3 (1, 10) rfl rfl
  simpa using h

/-- A labeled table row: a coordinate label (a day number for temporal
labels) paired with the row's value.  Modelled from the spec
(section 3, LabeledTable): a single-column table is a list of labeled rows
in their original order. -/
abbrev TableRow := Int × ℚ

/-- Coordinate-based row-range selection on a labeled table, keeping the
rows whose label lies in the half-open interval from s inclusive to e
exclusive, in their original order.  Modelled from the spec
(section 4.5 and 4.4): the notebook filters the table on
label at least the start and label strictly below the end. -/
def select_by_row_range (rows : List TableRow) (s e : Int) : List TableRow :=
  rows.filter (fun r => decide (s ≤ r.1) && decide (r.1 < e))

/-- C3: coordinate row-range selection with a half-open interval returns
exactly the rows whose label lies in the inclusive-start, exclusive-end
interval, preserved in original order (the result is a sublist of the
input, so a chronologically ordered input stays chronological). -/
theorem select_by_row_range_halfopen (rows : List TableRow) (s e : Int) :
    List.Sublist (select_by_row_range rows s e) rows ∧
    ∀ r : TableRow, r ∈ select_by_row_range rows s e ↔
      (r ∈ rows ∧ s ≤ r.1 ∧ r.1 < e) := by
  refine ⟨List.filter_sublist rows, fun r => ?_⟩
  simp [select_by_row_range, List.mem_filter, and_assoc]

/-- Labeled-table projection of a 1-D array.  Modelled from the spec
(section 4.5, to_table): a 1-D array of values together with row
coordinates yields a single-column table indexed by those coordinates;
fails with shapeMismatch when the label count differs from the array
length. -/
def to_table (vals : List ℚ) (labels : List Int) : Except AccessError (List TableRow) :=
  if labels.length = vals.length then .ok (labels.zip vals)
  else .error .shapeMismatch

/-- Read one row of a labeled table by its label: the value of the first
row carrying that label, or none when the label is absent. -/
def readRow (t : List TableRow) (lab : Int) : Option ℚ :=
  (t.find? (fun r => r.1 == lab)).map Prod.snd

/-- Reading back every label of a zipped table with distinct labels
reproduces the values in order. -/
theorem readRow_zip : ∀ (labels : List Int) (vals : List ℚ),
    labels.Nodup → labels.length = vals.length →
    labels.map (readRow (labels.zip vals)) = vals.map some := by
  intro labels
  induction labels with
  | nil =>
    intro vals _ hlen
    have : vals = [] := by
      rw [List.length_nil] at hlen
      exact (List.length_eq_zero.1 hlen.symm)
    simp [this]
  | cons l ls ih =>
    intro vals hnd hlen
    match vals with
    | [] => simp at hlen
    | v :: vs =>
      have hnotmem : l ∉ ls := (List.nodup_cons.1 hnd).1
      have hndtail : ls.Nodup := (List.nodup_cons.1 hnd).2
      simp only [List.zip_cons_cons, List.map_cons]
      have hhead : readRow ((l, v) :: ls.zip vs) l = some v := by
        simp [readRow, List.find?]
      have hcongr : ls.map (readRow ((l, v) :: ls.zip vs)) =
          ls.map (readRow (ls.zip vs)) := by
        refine List.map_congr_left ?_
        intro x hx
        have hne : (l == x) = false := by
          simp only [beq_eq_false_iff_ne, ne_eq]
          intro hlx
          exact hnotmem (hlx ▸ hx)
        simp [readRow, List.find?, hne]
      rw [hhead, hcongr, ih vs hndtail (by simpa using hlen)]

/-- C9: to_table on a 1-D array of length N with N distinct row labels
produces the single-column table pairing each label with its value, and
reading back every row by its label reproduces the original values in
their original order. -/
theorem to_table_roundtrip (vals : List ℚ) (labels : List Int)
    (hlen : labels.length = vals.length) (hnd : labels.Nodup) :
    to_table vals labels = .ok (labels.zip vals) ∧
    labels.map (readRow (labels.zip vals)) = vals.map some := by
  exact ⟨by simp [to_table, hlen], readRow_zip labels vals hnd hlen⟩

/-- Witness for C9: projecting the values 1 and 2 with the labels 10 and
20 and reading both labels back returns 1 and 2 in order. -/
theorem to_table_roundtrip_witness :
    [10, 20].map (readRow ([(10 : Int), 20].zip [(1 : ℚ), 2])) = [(1 : ℚ), 2].map some :=
  (to_table_roundtrip [1, 2] [10, 20] rfl (by decide)).2

/-- Time-coordinate decoding.  Modelled from the spec (section 4.3): the
unit string "<scale> since <epoch-date>" decodes a raw encoded offset as
epoch + raw * scale; dates are represented as day numbers and the scale is
in days (1 for a unit string counting days). -/
def decodeTime (epochDay scaleDays raw : Int) : Int := epochDay + raw * scaleDays

/-- Day number of the date 1990-01-01, the origin of the day-number
coordinate system used here. -/
def epoch1990 : Int := 0

/-- Modelled from the spec: the raw encoded time value stored at index 0 of
the time variable is not under src (the dataset file is external); the
notebook prints it and records it as 32864. -/
def rawTime0 : Int := 32864

/-- The decoded time coordinate at index 0 of the example dataset under a
day-counting unit string with epoch 1990-01-01. -/
def timeCoordinate0 : Int := decodeTime epoch1990 1 rawTime0

/-- Counterexample to C2 as stated: decoding the raw offset 32864 stored at
time index 0 with the rule epoch + raw * scale does not return the epoch
date 1990-01-01; it lands 32864 days later. -/
theorem timeCoordinate0_ne_epoch : timeCoordinate0 ≠ epoch1990 := by decide

/-- C2 (amended): index_to_coordinate("time", 0) returns the decoding
epoch + 32864 * (1 day) of the raw offset 32864 stored at index 0, which is
the epoch shifted by 32864 days, not the epoch date itself. -/
theorem timeCoordinate0_value : timeCoordinate0 = epoch1990 + 32864 := by decide

/-- C6: decoding the time axis is monotonically non-decreasing in the index
whenever the raw encoded offsets are non-decreasing and the scale is
non-negative, and decoding index 0 yields the epoch date itself whenever
the raw offset stored at index 0 is 0. -/
theorem index_to_coordinate_monotone (raw : Nat → Int) (e s : Int)
    (hs : 0 ≤ s) (hmono : ∀ i j : Nat, i ≤ j → raw i ≤ raw j) :
    (∀ i j : Nat, i ≤ j → decodeTime e s (raw i) ≤ decodeTime e s (raw j)) ∧
    (raw 0 = 0 → decodeTime e s (raw 0) = e) := by
  constructor
  · intro i j hij
    unfold decodeTime
    have := mul_le_mul_of_nonneg_right (hmono i j hij) hs
    omega
  · intro h0
    rw [h0]
    unfold decodeTime
    omega

/-- Witness for C6: with raw offsets given by the identity sequence, epoch
day 5 and a scale of 2 days, the decoded coordinate at index 1 is at most
the decoded coordinate at index 2. -/
theorem index_to_coordinate_monotone_witness :
    decodeTime 5 2 (Int.ofNat 1) ≤ decodeTime 5 2 (Int.ofNat 2) :=
  (index_to_coordinate_monotone Int.ofNat 5 2 (by decide)
    (fun i j h => Int.ofNat_le.mpr h)).1 1 2 (by decide)
